import Mathlib

/-!
Verification of the SCM10 temperature monitor's instrument-monitoring engine.

Shallow embedding of the Python sources:
- `protocol.py` (numeric parsing of instrument replies),
- `settings.py` (terminator escape encode/decode),
- `comms.py` (serial / ethernet connection lifecycle and query post-processing),
- `logger.py` (CSV session logger),
- `alarm.py` (threshold evaluation with email debounce),
- `main_window.py` (poll cycle and history ring buffer).

Machine reals (Python floats) are modelled as rationals; wall-clock instants
as rationals (seconds).  Fallible operations return `Option`/`Except`.
-/

/-! ## Python string primitives -/

/-- The characters Python's `str.isspace` reports as whitespace — the set
`str.strip()` removes: the ASCII controls `\t \n \v \f \r`, the file/group/
record/unit separators `\x1c`-`\x1f`, space, next line `\x85`, no-break
space `\xa0`, and the Unicode space separators. -/
def pyIsSpace (c : Char) : Bool :=
  c = ' ' || c = '\t' || c = '\n' || c = '\r' || c = '\x0b' || c = '\x0c' ||
  c = '\x1c' || c = '\x1d' || c = '\x1e' || c = '\x1f' || c = '\x85' ||
  c = '\xa0' || c = '\u1680' || c = '\u2000' || c = '\u2001' ||
  c = '\u2002' || c = '\u2003' || c = '\u2004' || c = '\u2005' ||
  c = '\u2006' || c = '\u2007' || c = '\u2008' || c = '\u2009' ||
  c = '\u200a' || c = '\u2028' || c = '\u2029' || c = '\u202f' ||
  c = '\u205f' || c = '\u3000'

/-- Python `str.lstrip()`: drop leading whitespace. -/
def pyLStrip (s : List Char) : List Char := s.dropWhile pyIsSpace

/-- Python `str.rstrip()`: drop trailing whitespace. -/
def pyRStrip (s : List Char) : List Char :=
  (s.reverse.dropWhile pyIsSpace).reverse

/-- Python `str.strip()`: drop leading and trailing whitespace. -/
def pyStrip (s : List Char) : List Char := pyLStrip (pyRStrip s)

/-- `bytes.decode("ascii", errors="ignore")`: bytes ≥ 128 are dropped,
the rest become the corresponding ASCII characters. -/
def decodeAsciiIgnore (bs : List Nat) : List Char :=
  bs.filterMap (fun b => if b < 128 then some (Char.ofNat b) else none)

/-! ## `protocol.py` — `parse_temperature`

The source searches the stripped reply for the first substring matching the
regular expression `[-+]?\d+(?:\.\d+)?(?:[eE][-+]?\d+)?` and converts it with
`float`.  `\d` is any Unicode decimal digit (category `Nd`) and `float` conversion
is modelled as exact rational evaluation of the matched literal, each digit
contributing its decimal value. -/

/-- Start code points of the runs of the Unicode `Nd` (decimal digit)
category, Unicode 15.0 — the set CPython's `re` matches for `\d` on `str`
and whose digit values `float()` accepts.  Every `Nd` run is ten
consecutive code points with digit values `0`-`9`. -/
def ndRangeStarts : List Nat :=
  [0x30, 0x660, 0x6F0, 0x7C0, 0x966, 0x9E6, 0xA66, 0xAE6, 0xB66, 0xBE6,
   0xC66, 0xCE6, 0xD66, 0xDE6, 0xE50, 0xED0, 0xF20, 0x1040, 0x1090, 0x17E0,
   0x1810, 0x1946, 0x19D0, 0x1A80, 0x1A90, 0x1B50, 0x1BB0, 0x1C40, 0x1C50,
   0xA620, 0xA8D0, 0xA900, 0xA9D0, 0xA9F0, 0xAA50, 0xABF0, 0xFF10,
   0x104A0, 0x10D30, 0x11066, 0x110F0, 0x11136, 0x111D0, 0x112F0, 0x11450,
   0x114D0, 0x11650, 0x116C0, 0x11730, 0x118E0, 0x11950, 0x11C50, 0x11D50,
   0x11DA0, 0x11F50, 0x16A60, 0x16AC0, 0x16B50, 0x1D7CE, 0x1D7D8, 0x1D7E2,
   0x1D7EC, 0x1D7F6, 0x1E140, 0x1E2F0, 0x1E4F0, 0x1E950, 0x1FBF0]

/-- The regex class `\d` of `protocol.py:12`: any Unicode decimal digit
(category `Nd`).  No `Nd` run lies between `0x3A` and `0x65F`, so ASCII
input takes the fast path. -/
def isReDigit (c : Char) : Bool :=
  if c.toNat < 0x660 then '0' ≤ c && c ≤ '9'
  else ndRangeStarts.any (fun s => s ≤ c.toNat && c.toNat < s + 10)

/-- The decimal value of an `Nd` digit: its offset in its run (`0` for a
non-digit, never consulted there). -/
def reDigitVal (c : Char) : Nat :=
  match ndRangeStarts.find? (fun s => s ≤ c.toNat && c.toNat < s + 10) with
  | some s => c.toNat - s
  | none => 0

/-- The optional fractional group `(?:\.\d+)?`: the matched characters
(possibly `[]`) and the remaining input. -/
def matchFracPart (rest : List Char) : List Char × List Char :=
  match rest with
  | c :: r =>
    if c = '.' then
      let fs := r.takeWhile isReDigit
      if fs.isEmpty then ([], rest) else ('.' :: fs, r.dropWhile isReDigit)
    else ([], rest)
  | [] => ([], rest)

/-- The exponent group after an initial `e`/`E` was seen: `[-+]?\d+`,
returning the full matched group (with `e` prepended) or `[]`. -/
def matchExpAfterE (e : Char) (r : List Char) : List Char :=
  match r with
  | sg :: r2 =>
    if sg = '+' || sg = '-' then
      let es := r2.takeWhile isReDigit
      if es.isEmpty then [] else e :: sg :: es
    else
      let es := (sg :: r2).takeWhile isReDigit
      if es.isEmpty then [] else e :: es
  | [] => []

/-- The optional exponent group `(?:[eE][-+]?\d+)?`: the matched characters
(possibly `[]`). -/
def matchExpPart (rest2 : List Char) : List Char :=
  match rest2 with
  | e :: r => if e = 'e' || e = 'E' then matchExpAfterE e r else []
  | [] => []

/-- Greedy match of `\d+(?:\.\d+)?(?:[eE][-+]?\d+)?` at the head of `s`:
returns the matched characters.  The optional groups start with a non-digit
character, so the greedy scan needs no backtracking. -/
def matchNumCore (s : List Char) : Option (List Char) :=
  let ds := s.takeWhile isReDigit
  let rest := s.dropWhile isReDigit
  if ds.isEmpty then none
  else
    let fr := matchFracPart rest
    some (ds ++ fr.1 ++ matchExpPart fr.2)

/-- Match attempt of the full pattern `[-+]?\d+(?:\.\d+)?(?:[eE][-+]?\d+)?`
anchored at the head of `s`.  (If the optional sign is consumed but no digit
follows, retrying without the sign also fails, since the sign character is
not a digit — so no explicit backtracking is needed.) -/
def matchNumAt (s : List Char) : Option (List Char) :=
  match s with
  | c :: rest =>
    if c = '+' || c = '-' then
      match matchNumCore rest with
      | some tok => some (c :: tok)
      | none => none
    else matchNumCore s
  | [] => none

/-- `re.search`: scan positions left to right, return the first match. -/
def searchNum : List Char → Option (List Char)
  | [] => none
  | c :: rest =>
    match matchNumAt (c :: rest) with
    | some tok => some tok
    | none => searchNum rest

/-- Value of a run of decimal digits, as `float()`/`int()` read it: each
Unicode decimal digit contributes its digit value. -/
def digitsToNat (ds : List Char) : Nat :=
  ds.foldl (fun a c => a * 10 + reDigitVal c) 0

/-- Exact value of a matched numeric token (Python `float(...)` on the
matched text, modelled exactly over ℚ). -/
def tokenToRat (tok : List Char) : ℚ :=
  -- optional sign
  let sp : ℤ × List Char :=
    match tok with
    | '-' :: r => (-1, r)
    | '+' :: r => (1, r)
    | _ => (1, tok)
  let sgn := sp.1
  let body := sp.2
  let ip := digitsToNat (body.takeWhile isReDigit)
  let rest := body.dropWhile isReDigit
  let fp : ℚ × List Char :=
    match rest with
    | '.' :: r =>
      let fs := r.takeWhile isReDigit
      ((digitsToNat fs : ℚ) / ((10 : ℚ) ^ fs.length), r.dropWhile isReDigit)
    | _ => (0, rest)
  let expo : ℤ :=
    match fp.2 with
    | _ :: '-' :: r => -(digitsToNat (r.takeWhile isReDigit) : ℤ)
    | _ :: '+' :: r => (digitsToNat (r.takeWhile isReDigit) : ℤ)
    | _ :: r => (digitsToNat (r.takeWhile isReDigit) : ℤ)
    | [] => 0
  (sgn : ℚ) * ((ip : ℚ) + fp.1) * (10 : ℚ) ^ expo

instance {ε α : Type} [DecidableEq ε] [DecidableEq α] :
    DecidableEq (Except ε α) := fun x y =>
  match x, y with
  | .ok a, .ok b =>
    if h : a = b then .isTrue (by rw [h])
    else .isFalse (by intro hh; injection hh; exact h (by assumption))
  | .error a, .error b =>
    if h : a = b then .isTrue (by rw [h])
    else .isFalse (by intro hh; injection hh; exact h (by assumption))
  | .ok _, .error _ => .isFalse (by intro hh; cases hh)
  | .error _, .ok _ => .isFalse (by intro hh; cases hh)

/-- Error raised by `parse_temperature`: Python raises `ValueError` with one
of two messages; the spec's taxonomy calls every such parse failure
`NoNumericValue`. -/
inductive ParseError where
  | valueError (msg : String)
  deriving DecidableEq, Repr

/-- `protocol.parse_temperature`: strip, fail on empty, else find the first
numeric token and convert it. -/
def parse_temperature (response : String) : Except ParseError ℚ :=
  let text := pyStrip response.data
  if text.isEmpty then .error (.valueError "Empty response")
  else
    match searchNum text with
    | none => .error (.valueError "No numeric value in response")
    | some tok => .ok (tokenToRat tok)

/-! ## `settings.py` — terminator escape encode/decode

`encode_terminator` is four chained `str.replace` calls with single-character
patterns; `decode_terminator` is `value.encode("utf-8").decode("unicode_escape")`
(on the ASCII strings at issue, the UTF-8 step is the identity on bytes).
The `unicode_escape` codec is modelled as a fallible decoder: `none` stands
for a `UnicodeDecodeError` from the codec. -/

/-- Python `str.replace(c, rep)` for a single-character pattern `c`. -/
def pyReplaceChar (s : List Char) (c : Char) (rep : List Char) : List Char :=
  match s with
  | [] => []
  | x :: xs => (if x = c then rep else [x]) ++ pyReplaceChar xs c rep

/-- `settings.encode_terminator`:
`value.replace("\\","\\\\").replace("\r","\\r").replace("\n","\\n").replace("\t","\\t")`. -/
def encodeTermList (v : List Char) : List Char :=
  pyReplaceChar
    (pyReplaceChar
      (pyReplaceChar
        (pyReplaceChar v '\\' ['\\', '\\'])
        '\r' ['\\', 'r'])
      '\n' ['\\', 'n'])
    '\t' ['\\', 't']

def encode_terminator (v : String) : String := ⟨encodeTermList v.data⟩

def isOctDigit (c : Char) : Bool := '0' ≤ c && c ≤ '7'

def octVal (c : Char) : Nat := c.toNat - 48

def headIsOct : List Char → Bool
  | d :: _ => isOctDigit d
  | [] => false

def hexDigitVal (c : Char) : Option Nat :=
  if '0' ≤ c && c ≤ '9' then some (c.toNat - 48)
  else if 'a' ≤ c && c ≤ 'f' then some (c.toNat - 87)
  else if 'A' ≤ c && c ≤ 'F' then some (c.toNat - 55)
  else none

/-- One escape of Python's `unicode_escape` codec, applied to the input
following a backslash: the decoded output characters and the remaining
input.  Covers `\\`, `\'`, `\"`, `\a`, `\b`, `\f`, `\n`, `\r`, `\t`,
`\v`, octal, `\xhh`, `\uhhhh`, `\Uhhhhhhhh`; keeps unknown escapes
verbatim; drops a backslash-newline line continuation; fails (`none`) on a
trailing lone backslash or malformed `\x`/`\u`/`\U`.  `\N{...}` consults
the external Unicode name database, and code points that are not Lean
scalar values (lone surrogates) are not representable in `Char`; both are
modelled as failure — neither is reachable from the escape classes the
repository writes. -/
def decodeEscStep : List Char → Option (List Char × List Char)
  | [] => none
  | d :: r =>
    if d = '\n' then some ([], r)
    else if d = '\\' then some (['\\'], r)
    else if d = '\'' then some (['\''], r)
    else if d = '"' then some (['"'], r)
    else if d = 'a' then some (['\x07'], r)
    else if d = 'b' then some (['\x08'], r)
    else if d = 'f' then some (['\x0c'], r)
    else if d = 'n' then some (['\n'], r)
    else if d = 'r' then some (['\r'], r)
    else if d = 't' then some (['\t'], r)
    else if d = 'v' then some (['\x0b'], r)
    else if isOctDigit d then
      match r with
      | d2 :: r2 =>
        if isOctDigit d2 then
          match r2 with
          | d3 :: r3 =>
            if isOctDigit d3 then
              some ([Char.ofNat (octVal d * 64 + octVal d2 * 8 + octVal d3)], r3)
            else some ([Char.ofNat (octVal d * 8 + octVal d2)], d3 :: r3)
          | [] => some ([Char.ofNat (octVal d * 8 + octVal d2)], [])
        else some ([Char.ofNat (octVal d)], d2 :: r2)
      | [] => some ([Char.ofNat (octVal d)], [])
    else if d = 'x' then
      match r with
      | h1 :: h2 :: r2 =>
        match hexDigitVal h1, hexDigitVal h2 with
        | some a, some b => some ([Char.ofNat (a * 16 + b)], r2)
        | _, _ => none
      | _ => none
    else if d = 'u' then
      match r with
      | h1 :: h2 :: h3 :: h4 :: r2 =>
        match hexDigitVal h1, hexDigitVal h2, hexDigitVal h3, hexDigitVal h4 with
        | some a, some b, some e, some f =>
          let m := ((a * 16 + b) * 16 + e) * 16 + f
          if m.isValidChar then some ([Char.ofNat m], r2) else none
        | _, _, _, _ => none
      | _ => none
    else if d = 'U' then
      match r with
      | h1 :: h2 :: h3 :: h4 :: h5 :: h6 :: h7 :: h8 :: r2 =>
        match hexDigitVal h1, hexDigitVal h2, hexDigitVal h3, hexDigitVal h4,
            hexDigitVal h5, hexDigitVal h6, hexDigitVal h7, hexDigitVal h8 with
        | some a, some b, some e, some f, some g, some i, some j, some k =>
          let m := ((((((a * 16 + b) * 16 + e) * 16 + f) * 16 + g) * 16 + i) * 16 + j)
              * 16 + k
          if m.isValidChar then some ([Char.ofNat m], r2) else none
        | _, _, _, _, _, _, _, _ => none
      | _ => none
    else if d = 'N' then none
    else some (['\\', d], r)

/-- The codec's scan: ordinary characters pass through, a backslash hands
off to `decodeEscStep`.  The scan consumes at least one character per step,
so the `fuel` parameter — always instantiated with the input length — only
bounds the recursion and never alters the result. -/
def decodeUEscF : Nat → List Char → Option (List Char)
  | _, [] => some []
  | 0, _ :: _ => none
  | n + 1, c :: rest =>
    if c = '\\' then
      match decodeEscStep rest with
      | some (out, rest2) => (fun t => out ++ t) <$> decodeUEscF n rest2
      | none => none
    else (fun t => c :: t) <$> decodeUEscF n rest

/-- The codec applied to a whole input. -/
def decodeUEsc (l : List Char) : Option (List Char) := decodeUEscF l.length l

/-- `settings.decode_terminator`: `none` models a codec error. -/
def decode_terminator (v : String) : Option String :=
  (fun l => (⟨l⟩ : String)) <$> decodeUEsc v.data

/-! ## `comms.py` — connection lifecycle

`SerialConnection` keeps a `pyserial` handle in `self._serial`; the handle
carries its own `is_open` flag and handles are distinguishable objects
(modelled by an allocation counter).  `EthernetConnection` keeps a socket in
`self._sock`.  `query` is modelled up to its first I/O operation: either it
raises the not-open `RuntimeError`, or it proceeds to perform I/O on the
stored handle. -/

structure SerialHandle where
  handleId : Nat
  is_open : Bool
  deriving DecidableEq, Repr

structure SerialConnection where
  serialField : Option SerialHandle
  nextId : Nat
  deriving DecidableEq, Repr

def SerialConnection.init : SerialConnection := ⟨none, 0⟩

/-- `SerialConnection.open`: keep the handle if present and open, else
construct a fresh `serial.Serial` (a new handle). -/
def SerialConnection.openConn (c : SerialConnection) : SerialConnection :=
  match c.serialField with
  | some h => if h.is_open then c else ⟨some ⟨c.nextId, true⟩, c.nextId + 1⟩
  | none => ⟨some ⟨c.nextId, true⟩, c.nextId + 1⟩

/-- `SerialConnection.close`: close the handle if present and open; the
handle reference itself is retained. -/
def SerialConnection.closeConn (c : SerialConnection) : SerialConnection :=
  match c.serialField with
  | some h => if h.is_open then ⟨some ⟨h.handleId, false⟩, c.nextId⟩ else c
  | none => c

def SerialConnection.is_open (c : SerialConnection) : Bool :=
  match c.serialField with
  | some h => h.is_open
  | none => false

/-- Outcome of the guard at the head of `query`: either the not-open
`RuntimeError` is raised, or the method proceeds to I/O on the handle. -/
inductive QueryStep where
  | notOpenError
  | ioAttempt
  deriving DecidableEq, Repr

/-- `SerialConnection.query`, up to its first I/O call:
`if not self._serial: raise RuntimeError("Serial connection not open")`,
then `reset_input_buffer`/`write`/`read` on the stored handle. -/
def SerialConnection.queryStep (c : SerialConnection) : QueryStep :=
  match c.serialField with
  | none => .notOpenError
  | some _ => .ioAttempt

structure EthernetConnection where
  sockField : Option Nat
  nextId : Nat
  deriving DecidableEq, Repr

def EthernetConnection.init : EthernetConnection := ⟨none, 0⟩

/-- `EthernetConnection.open`: return if a socket exists, else connect. -/
def EthernetConnection.openConn (c : EthernetConnection) : EthernetConnection :=
  match c.sockField with
  | some _ => c
  | none => ⟨some c.nextId, c.nextId + 1⟩

/-- `EthernetConnection.close`: shut down and drop the socket. -/
def EthernetConnection.closeConn (c : EthernetConnection) : EthernetConnection :=
  ⟨none, c.nextId⟩

def EthernetConnection.is_open (c : EthernetConnection) : Bool :=
  c.sockField.isSome

/-- `EthernetConnection.query`, up to its first I/O call. -/
def EthernetConnection.queryStep (c : EthernetConnection) : QueryStep :=
  match c.sockField with
  | none => .notOpenError
  | some _ => .ioAttempt

/-! ## `comms.py` — query reply post-processing

Both reply paths end with `data.decode("ascii", errors="ignore").strip()`
(`SerialConnection.query` line 68 and `_recv_until` line 119): the
accumulated raw bytes are decoded permissively and then whitespace-stripped.
The raw bytes of a reply that ended at the terminator have the terminator as
a suffix. -/

def queryPostprocess (raw : List Nat) : List Char :=
  pyStrip (decodeAsciiIgnore raw)

/-! ## `logger.py` — `DataLogger`

The file handle is modelled by the list of lines written through it
(`none` = never started or closed).  Whether a physical write succeeds is an
environment fact, passed in as `writeOk`; a failing write raises, which the
model returns as `Except.error`. -/

structure DataLogger where
  file_path : Option String
  handleField : Option (List String)
  deriving DecidableEq, Repr

def DataLogger.initFor : DataLogger := ⟨none, none⟩

/-- `DataLogger.start`: open a fresh file and write the header row. -/
def DataLogger.start (_l : DataLogger) (path : String) : DataLogger :=
  ⟨some path, some ["timestamp_iso,elapsed_s,temperature_k"]⟩

/-- `DataLogger.log`: no-op when there is no handle; otherwise append one
CSV row (the write can fail, modelled by `writeOk`). -/
def DataLogger.log (l : DataLogger) (writeOk : Bool) (row : String) :
    Except Unit DataLogger :=
  match l.handleField with
  | none => .ok l
  | some lines => if writeOk then .ok ⟨l.file_path, some (lines ++ [row])⟩ else .error ()

/-- `DataLogger.close`: drop the handle if present. -/
def DataLogger.close (l : DataLogger) : DataLogger :=
  ⟨l.file_path, none⟩

/-! ## `alarm.py` — `AlarmManager`

Wall-clock time and temperatures are rationals.  `evaluate` returns the new
manager state together with whether a notification dispatch was started on
this call (`threading.Thread(...).start()` on the email sender). -/

structure AlarmSettings where
  enabled : Bool
  low_enabled : Bool
  low_threshold : ℚ
  high_enabled : Bool
  high_threshold : ℚ
  beep_enabled : Bool
  email_enabled : Bool
  email_min_interval_min : ℤ
  deriving DecidableEq, Repr

structure EmailConfig where
  smtp_host : String
  smtp_port : ℤ
  use_tls : Bool
  username : String
  password : String
  from_addr : String
  to_addrs : List String
  subject : String
  deriving DecidableEq, Repr

structure AlarmManager where
  last_email_ts : Option ℚ
  in_alarm : Bool
  deriving DecidableEq, Repr

def AlarmManager.init : AlarmManager := ⟨none, false⟩

def AlarmManager.reset (_m : AlarmManager) : AlarmManager := ⟨none, false⟩

/-- `AlarmManager.evaluate` at wall-clock instant `now` (the value
`time.time()` returns inside the call).  The returned `Bool` is `true` iff
the email dispatch thread was started. -/
def AlarmManager.evaluate (m : AlarmManager) (temperature : ℚ)
    (settings : AlarmSettings) (email_config : Option EmailConfig) (now : ℚ) :
    AlarmManager × Bool :=
  if !settings.enabled then ({ m with in_alarm := false }, false)
  else
    let is_low := settings.low_enabled && decide (temperature < settings.low_threshold)
    let is_high := settings.high_enabled && decide (temperature > settings.high_threshold)
    let in_alarm := is_low || is_high
    -- beep side channel: best-effort, no state change
    if in_alarm && settings.email_enabled && email_config.isSome then
      let min_interval : ℚ := ((max 1 settings.email_min_interval_min : ℤ) : ℚ) * 60
      match m.last_email_ts with
      | none => (⟨some now, in_alarm⟩, true)
      | some ts =>
        if now - ts ≥ min_interval then (⟨some now, in_alarm⟩, true)
        else (⟨m.last_email_ts, in_alarm⟩, false)
    else (⟨m.last_email_ts, in_alarm⟩, false)

/-! ## `main_window.py` — history ring buffer truncation

`_poll_temperature` appends the new point and then truncates with
`self.time_data[-max_points:]` when the length exceeds `max_points`.
A Python slice `lst[-k:]` with `k = 0` is `lst[0:]`, the whole list. -/

/-- Python `lst[-k:]` for `k : ℕ`. -/
def pyTailSlice (l : List α) (k : Nat) : List α :=
  if k = 0 then l else l.drop (l.length - k)

/-- One history append as performed by `_poll_temperature` (lines 533-539),
on one of the two parallel series. -/
def appendPoint (max_points : Nat) (buf : List α) (x : α) : List α :=
  let b := buf ++ [x]
  if b.length > max_points then pyTailSlice b max_points else b

/-! ## `main_window.py` — `_poll_temperature` control flow

One poll cycle, given the environment's responses: the outcome of
`query` + `parse_temperature` (an exception or a temperature), and whether
the logger's file write succeeds.  The `try` block covers only query and
parse; a failing log write propagates out of the handler (mutations made
before it persist, statements after it do not run). -/

structure PollState where
  time_data : List ℚ
  temp_data : List ℚ
  logger : Option DataLogger
  alarm_manager : AlarmManager
  deriving DecidableEq, Repr

structure PollReport where
  statusMessage : Option String
  alarmEvaluated : Bool
  uncaughtError : Bool
  deriving DecidableEq, Repr

/-- `MainWindow._poll_temperature` (lines 518-567), with the environment's
behaviour abstracted: `queryParse` is the joint outcome of
`self.connection.query` and `parse_temperature`, `elapsed` the monotonic
offset, `row` the CSV row text, `writeOk` whether the handle write succeeds,
and `now` the wall clock seen by `AlarmManager.evaluate`. -/
def pollTemperature (st : PollState)
    (queryParse : Except String ℚ) (elapsed : ℚ) (row : String) (writeOk : Bool)
    (max_points : Nat) (asettings : AlarmSettings) (econfig : Option EmailConfig)
    (now : ℚ) : PollState × PollReport :=
  match queryParse with
  | .error msg =>
    (st, ⟨some ("Read failed: " ++ msg), false, false⟩)
  | .ok temperature =>
    let time1 := appendPoint max_points st.time_data elapsed
    let temp1 := appendPoint max_points st.temp_data temperature
    match st.logger with
    | some lg =>
      match lg.log writeOk row with
      | .ok lg2 =>
        let ev := st.alarm_manager.evaluate temperature asettings econfig now
        (⟨time1, temp1, some lg2, ev.1⟩, ⟨none, true, false⟩)
      | .error _ =>
        -- the write raised: state mutated so far is kept, the exception
        -- escapes `_poll_temperature`, alarm evaluation is skipped
        (⟨time1, temp1, some lg, st.alarm_manager⟩, ⟨none, false, true⟩)
    | none =>
      let ev := st.alarm_manager.evaluate temperature asettings econfig now
      (⟨time1, temp1, none, ev.1⟩, ⟨none, true, false⟩)

/-! ## Spec-side grammar for the numeric pattern

The spec describes the accepted substrings as
`[-+]?digits[.digits][eE[-+]digits]`.  `specNumToken` decides membership of
a whole string in that language, written from the spec's words
independently of the scanning matcher above, to compare the two. -/

/-- Remainder after consuming the optional `[.digits]` group of the spec's
pattern from `r1`. -/
def specFracRemainder (r1 : List Char) : List Char :=
  match r1 with
  | c :: rr =>
    if c = '.' then
      if (rr.takeWhile isReDigit).isEmpty then c :: rr
      else rr.dropWhile isReDigit
    else c :: rr
  | [] => []

/-- Remainder after consuming `[-+]?digits` of an exponent group whose
`e`/`E` was the character `e`; the whole group is left in place when the
required digits are missing. -/
def specExpTail (e : Char) (rr : List Char) : List Char :=
  match rr with
  | sg :: rr2 =>
    if sg = '+' || sg = '-' then
      if (rr2.takeWhile isReDigit).isEmpty then e :: sg :: rr2
      else rr2.dropWhile isReDigit
    else
      if ((sg :: rr2).takeWhile isReDigit).isEmpty then e :: sg :: rr2
      else (sg :: rr2).dropWhile isReDigit
  | [] => [e]

/-- Remainder after consuming the optional `[eE[-+]digits]` group of the
spec's pattern from `r2`. -/
def specExpRemainder (r2 : List Char) : List Char :=
  match r2 with
  | e :: rr => if e = 'e' || e = 'E' then specExpTail e rr else e :: rr
  | [] => []

/-- Membership of `body` in `digits[.digits][eE[-+]digits]`
(the unsigned part of the spec's pattern): required digits, then the two
optional groups, with nothing left over. -/
def specNumBody (body : List Char) : Bool :=
  let ds := body.takeWhile isReDigit
  let r1 := body.dropWhile isReDigit
  if ds.isEmpty then false
  else (specExpRemainder (specFracRemainder r1)).isEmpty

/-- Membership of `t` in the spec's full pattern
`[-+]?digits[.digits][eE[-+]digits]`. -/
def specNumToken (t : List Char) : Bool :=
  match t with
  | c :: r => if c = '+' || c = '-' then specNumBody r else specNumBody t
  | [] => false

/-! # Theorems

General list facts used by the parser analysis. -/

theorem dropWhile_head_false {p : Char → Bool} :
    ∀ {l : List Char} {c : Char} {r : List Char},
      l.dropWhile p = c :: r → p c = false := by
  intro l
  induction l with
  | nil => intro c r h; simp [List.dropWhile] at h
  | cons a t ih =>
    intro c r h
    rw [List.dropWhile_cons] at h
    by_cases hpa : p a = true
    · rw [if_pos hpa] at h; exact ih h
    · rw [if_neg hpa] at h
      cases h
      exact Bool.eq_false_iff.mpr hpa

theorem takeWhile_append_sat {p : Char → Bool} {l1 l2 : List Char}
    (h1 : ∀ c ∈ l1, p c = true)
    (h2 : ∀ c r, l2 = c :: r → p c = false) :
    (l1 ++ l2).takeWhile p = l1 := by
  induction l1 with
  | nil =>
    cases l2 with
    | nil => rfl
    | cons c r => simp [List.takeWhile_cons, h2 c r rfl]
  | cons a t ih =>
    have hpa := h1 a (by simp)
    simp only [List.cons_append, List.takeWhile_cons, hpa, if_true]
    rw [ih (fun c hc => h1 c (by simp [hc]))]

theorem dropWhile_append_sat {p : Char → Bool} {l1 l2 : List Char}
    (h1 : ∀ c ∈ l1, p c = true)
    (h2 : ∀ c r, l2 = c :: r → p c = false) :
    (l1 ++ l2).dropWhile p = l2 := by
  induction l1 with
  | nil =>
    cases l2 with
    | nil => rfl
    | cons c r => simp [List.dropWhile_cons, h2 c r rfl]
  | cons a t ih =>
    have hpa := h1 a (by simp)
    simp only [List.cons_append, List.dropWhile_cons, hpa, if_true]
    exact ih (fun c hc => h1 c (by simp [hc]))

theorem takeWhile_all_sat {p : Char → Bool} {l : List Char}
    (h : ∀ c ∈ l, p c = true) : l.takeWhile p = l := by
  have := @takeWhile_append_sat p l [] h (by intro c r hc; cases hc)
  simpa using this

theorem matchFracPart_eq (rest : List Char) :
    (matchFracPart rest).1 ++ (matchFracPart rest).2 = rest := by
  unfold matchFracPart
  cases rest with
  | nil => rfl
  | cons c r =>
    by_cases hc : c = '.'
    · subst hc
      by_cases hfs : (r.takeWhile isReDigit).isEmpty
      · simp [hfs]
      · simp [hfs, List.takeWhile_append_dropWhile]
    · simp [hc]

theorem matchFracPart_shape (rest : List Char) :
    ((matchFracPart rest).1 = [] ∧ (matchFracPart rest).2 = rest) ∨
      (∃ fs, (matchFracPart rest).1 = '.' :: fs ∧ fs ≠ [] ∧
        (∀ c ∈ fs, isReDigit c = true) ∧
        (matchFracPart rest).2 = (rest.tail).dropWhile isReDigit) := by
  unfold matchFracPart
  cases rest with
  | nil => left; exact ⟨rfl, rfl⟩
  | cons c r =>
    by_cases hc : c = '.'
    · subst hc
      by_cases hfs : (r.takeWhile isReDigit).isEmpty
      · left; simp [hfs]
      · right
        refine ⟨r.takeWhile isReDigit, ?_, ?_, ?_, ?_⟩
        · simp [hfs]
        · simpa [List.isEmpty_iff] using hfs
        · intro x hx; exact List.mem_takeWhile_imp hx
        · simp [hfs]
    · left; simp [hc]


theorem matchExpPart_prefix (r : List Char) :
    ∃ tail, matchExpPart r ++ tail = r := by
  cases r with
  | nil => exact ⟨[], rfl⟩
  | cons e rr =>
    by_cases he : (e = 'e' || e = 'E') = true
    · cases rr with
      | nil => exact ⟨[e], by simp [matchExpPart, matchExpAfterE, he]⟩
      | cons sg r2 =>
        by_cases hsg : (sg = '+' || sg = '-') = true
        · by_cases hes : (r2.takeWhile isReDigit).isEmpty = true
          · exact ⟨e :: sg :: r2, by simp [matchExpPart, matchExpAfterE, he, hsg, hes]⟩
          · refine ⟨r2.dropWhile isReDigit, ?_⟩
            simp [matchExpPart, matchExpAfterE, he, hsg, hes,
              List.takeWhile_append_dropWhile]
        · by_cases hes : ((sg :: r2).takeWhile isReDigit).isEmpty = true
          · exact ⟨e :: sg :: r2, by simp [matchExpPart, matchExpAfterE, he, hsg, hes]⟩
          · refine ⟨(sg :: r2).dropWhile isReDigit, ?_⟩
            simp [matchExpPart, matchExpAfterE, he, hsg, hes]
    · exact ⟨e :: rr, by simp [matchExpPart, he]⟩

theorem matchExpPart_shape (r : List Char) :
    matchExpPart r = [] ∨
      (∃ e es, (e = 'e' ∨ e = 'E') ∧ es ≠ [] ∧
        (∀ c ∈ es, isReDigit c = true) ∧
        (matchExpPart r = e :: es ∨
          ∃ sg, (sg = '+' ∨ sg = '-') ∧ matchExpPart r = e :: sg :: es)) := by
  cases r with
  | nil => left; rfl
  | cons e rr =>
    by_cases he : (e = 'e' || e = 'E') = true
    · cases rr with
      | nil => left; simp [matchExpPart, matchExpAfterE, he]
      | cons sg r2 =>
        by_cases hsg : (sg = '+' || sg = '-') = true
        · by_cases hes : (r2.takeWhile isReDigit).isEmpty = true
          · left; simp [matchExpPart, matchExpAfterE, he, hsg, hes]
          · right
            refine ⟨e, r2.takeWhile isReDigit, by simpa using he, ?_, ?_, ?_⟩
            · simpa [List.isEmpty_iff] using hes
            · intro x hx; exact List.mem_takeWhile_imp hx
            · right
              exact ⟨sg, by simpa using hsg,
                by simp [matchExpPart, matchExpAfterE, he, hsg, hes]⟩
        · by_cases hes : ((sg :: r2).takeWhile isReDigit).isEmpty = true
          · left; simp [matchExpPart, matchExpAfterE, he, hsg, hes]
          · right
            refine ⟨e, (sg :: r2).takeWhile isReDigit, by simpa using he, ?_, ?_, ?_⟩
            · simpa [List.isEmpty_iff] using hes
            · intro x hx; exact List.mem_takeWhile_imp hx
            · left; simp [matchExpPart, matchExpAfterE, he, hsg, hes]
    · left; simp [matchExpPart, he]

theorem digit_ne_plus {c : Char} (h : isReDigit c = true) : c ≠ '+' := by
  intro hc; subst hc; exact absurd h (by decide)

theorem digit_ne_minus {c : Char} (h : isReDigit c = true) : c ≠ '-' := by
  intro hc; subst hc; exact absurd h (by decide)

theorem digit_ne_dot {c : Char} (h : isReDigit c = true) : c ≠ '.' := by
  intro hc; subst hc; exact absurd h (by decide)

theorem expChar_not_digit {e : Char} (h : e = 'e' ∨ e = 'E') :
    isReDigit e = false := by
  rcases h with h | h <;> subst h <;> decide

theorem expChar_ne_dot {e : Char} (h : e = 'e' ∨ e = 'E') : e ≠ '.' := by
  rcases h with h | h <;> subst h <;> decide

theorem dropWhile_all_sat {p : Char → Bool} {l : List Char}
    (h : ∀ c ∈ l, p c = true) : l.dropWhile p = [] := by
  have := @dropWhile_append_sat p l [] h (by intro c r hc; cases hc)
  simpa using this

theorem takeWhile_nonempty_of {p : Char → Bool} {l : List Char}
    (hne : l ≠ []) (h : ∀ c ∈ l, p c = true) :
    (l.takeWhile p).isEmpty = false := by
  rw [takeWhile_all_sat h]
  cases l with
  | nil => exact absurd rfl hne
  | cons a t => rfl

/-- A list of the form `digits ++ optFrac ++ optExp` (with well-formed
groups) is in the spec language `digits[.digits][eE[-+]digits]`. -/
theorem specNumBody_construct
    {ds frac ex : List Char}
    (hds_ne : ds ≠ [])
    (hds : ∀ c ∈ ds, isReDigit c = true)
    (hfrac : frac = [] ∨ ∃ fs, frac = '.' :: fs ∧ fs ≠ [] ∧
      ∀ c ∈ fs, isReDigit c = true)
    (hex : ex = [] ∨
      ∃ e es, (e = 'e' ∨ e = 'E') ∧ es ≠ [] ∧ (∀ c ∈ es, isReDigit c = true) ∧
        (ex = e :: es ∨ ∃ sg, (sg = '+' ∨ sg = '-') ∧ ex = e :: sg :: es)) :
    specNumBody (ds ++ (frac ++ ex)) = true := by
  have hhead_ex : ∀ c r, ex = c :: r → isReDigit c = false := by
    intro c r hc
    rcases hex with hx | ⟨e, es, he, _, _, hx | ⟨sg, _, hx⟩⟩
    · rw [hx] at hc; cases hc
    · rw [hx] at hc; injection hc with h1 _; subst h1; exact expChar_not_digit he
    · rw [hx] at hc; injection hc with h1 _; subst h1; exact expChar_not_digit he
  have hhead_fe : ∀ c r, frac ++ ex = c :: r → isReDigit c = false := by
    intro c r hc
    rcases hfrac with hf | ⟨fs, hf, _, _⟩
    · rw [hf] at hc; simp at hc; exact hhead_ex c r hc
    · rw [hf] at hc; injection hc with h1 _; subst h1; decide
  have ht : (ds ++ (frac ++ ex)).takeWhile isReDigit = ds :=
    takeWhile_append_sat hds hhead_fe
  have hd : (ds ++ (frac ++ ex)).dropWhile isReDigit = frac ++ ex :=
    dropWhile_append_sat hds hhead_fe
  have hds_emp : ds.isEmpty = false := by
    cases ds with
    | nil => exact absurd rfl hds_ne
    | cons a t => rfl
  have hfr : specFracRemainder (frac ++ ex) = ex := by
    rcases hfrac with hf | ⟨fs, hf, hfs_ne, hfs⟩
    · subst hf
      simp only [List.nil_append]
      rcases hex with hx | ⟨e, es, he, _, _, hx | ⟨sg, _, hx⟩⟩
      · subst hx; rfl
      · rw [hx]; simp [specFracRemainder, expChar_ne_dot he]
      · rw [hx]; simp [specFracRemainder, expChar_ne_dot he]
    · subst hf
      have htf : (fs ++ ex).takeWhile isReDigit = fs :=
        takeWhile_append_sat hfs hhead_ex
      have hdf : (fs ++ ex).dropWhile isReDigit = ex :=
        dropWhile_append_sat hfs hhead_ex
      have hne : ((fs ++ ex).takeWhile isReDigit).isEmpty = false := by
        rw [htf]
        cases fs with
        | nil => exact absurd rfl hfs_ne
        | cons a t => rfl
      simp [specFracRemainder, hne, hdf]
  have hexr : specExpRemainder ex = [] := by
    rcases hex with hx | ⟨e, es, he, hes_ne, hes, hx | ⟨sg, hsg, hx⟩⟩
    · subst hx; rfl
    · subst hx
      have he' : (e = 'e' || e = 'E') = true := by
        rcases he with h | h <;> simp [h]
      cases es with
      | nil => exact absurd rfl hes_ne
      | cons d es2 =>
        have hd_digit : isReDigit d = true := hes d (by simp)
        have hd_sign : ¬((d = '+' || d = '-') = true) := by
          simp only [Bool.or_eq_true, decide_eq_true_eq]
          rintro (h | h)
          · exact digit_ne_plus hd_digit h
          · exact digit_ne_minus hd_digit h
        have hne : ((d :: es2).takeWhile isReDigit).isEmpty = false :=
          takeWhile_nonempty_of (by simp) hes
        simp [specExpRemainder, specExpTail, he', hd_sign, hne,
          dropWhile_all_sat hes]
    · subst hx
      have he' : (e = 'e' || e = 'E') = true := by
        rcases he with h | h <;> simp [h]
      have hsg' : (sg = '+' || sg = '-') = true := by
        rcases hsg with h | h <;> simp [h]
      have hne : (es.takeWhile isReDigit).isEmpty = false :=
        takeWhile_nonempty_of hes_ne hes
      simp [specExpRemainder, specExpTail, he', hsg', hne, dropWhile_all_sat hes]
  simp [specNumBody, ht, hd, hds_emp, hfr, hexr]

theorem matchNumCore_sound {s tok : List Char} (h : matchNumCore s = some tok) :
    (∃ rest, s = tok ++ rest) ∧ specNumBody tok = true ∧
      ∃ d ds2, tok = d :: ds2 ∧ isReDigit d = true := by
  unfold matchNumCore at h
  by_cases hemp : (s.takeWhile isReDigit).isEmpty = true
  · rw [if_pos hemp] at h; cases h
  · rw [if_neg hemp] at h
    injection h with h
    obtain ⟨frac, rest2, hfr⟩ :
        ∃ a b, matchFracPart (s.dropWhile isReDigit) = (a, b) := ⟨_, _, rfl⟩
    have hfr1 : (matchFracPart (s.dropWhile isReDigit)).1 = frac := by rw [hfr]
    have hfr2 : (matchFracPart (s.dropWhile isReDigit)).2 = rest2 := by rw [hfr]
    rw [hfr1, hfr2] at h
    have hds : ∀ c ∈ s.takeWhile isReDigit, isReDigit c = true :=
      fun c hc => List.mem_takeWhile_imp hc
    have hds_ne : s.takeWhile isReDigit ≠ [] := by
      intro hc; rw [hc] at hemp; exact hemp rfl
    have h2 : frac ++ rest2 = s.dropWhile isReDigit := by
      have := matchFracPart_eq (s.dropWhile isReDigit)
      rwa [hfr1, hfr2] at this
    obtain ⟨tail, htail⟩ := matchExpPart_prefix rest2
    have hfrac : frac = [] ∨ ∃ fs, frac = '.' :: fs ∧ fs ≠ [] ∧
        ∀ c ∈ fs, isReDigit c = true := by
      have hshape := matchFracPart_shape (s.dropWhile isReDigit)
      rw [hfr1] at hshape
      rcases hshape with ⟨h1, _⟩ | ⟨fs, h1, hb, hcc, _⟩
      · exact Or.inl h1
      · exact Or.inr ⟨fs, h1, hb, hcc⟩
    have hex := matchExpPart_shape rest2
    refine ⟨?_, ?_, ?_⟩
    · refine ⟨tail, ?_⟩
      calc s = s.takeWhile isReDigit ++ s.dropWhile isReDigit :=
            (List.takeWhile_append_dropWhile ..).symm
        _ = s.takeWhile isReDigit ++ (frac ++ rest2) := by rw [h2]
        _ = s.takeWhile isReDigit ++ (frac ++ (matchExpPart rest2 ++ tail)) := by
            rw [htail]
        _ = (s.takeWhile isReDigit ++ frac ++ matchExpPart rest2) ++ tail := by
            simp [List.append_assoc]
        _ = tok ++ tail := by rw [h]
    · rw [← h]
      have := specNumBody_construct hds_ne hds hfrac
        (by
          rcases hex with h1 | ⟨e, es, h1, hb, hcc, h4⟩
          · exact Or.inl h1
          · exact Or.inr ⟨e, es, h1, hb, hcc, h4⟩)
      simpa [List.append_assoc] using this
    · cases hc : s.takeWhile isReDigit with
      | nil => exact absurd hc hds_ne
      | cons d t =>
        refine ⟨d, t ++ frac ++ matchExpPart rest2, ?_,
          hds d (by rw [hc]; simp)⟩
        rw [← h, hc]
        simp [List.append_assoc]

theorem matchNumAt_sound {s tok : List Char} (h : matchNumAt s = some tok) :
    specNumToken tok = true ∧ ∃ rest, s = tok ++ rest := by
  cases s with
  | nil => cases h
  | cons c s' =>
    by_cases hc : (c = '+' || c = '-') = true
    · rw [matchNumAt, if_pos hc] at h
      cases hm : matchNumCore s' with
      | none => rw [hm] at h; cases h
      | some t =>
        rw [hm] at h
        injection h with h
        subst h
        obtain ⟨⟨rest, hpre⟩, hbody, _⟩ := matchNumCore_sound hm
        constructor
        · simpa [specNumToken, hc] using hbody
        · exact ⟨rest, by simp [hpre]⟩
    · rw [matchNumAt, if_neg hc] at h
      obtain ⟨⟨rest, hpre⟩, hbody, d, ds2, htok, hd⟩ := matchNumCore_sound h
      constructor
      · have hd_sign : ¬((d = '+' || d = '-') = true) := by
          simp only [Bool.or_eq_true, decide_eq_true_eq]
          rintro (hh | hh)
          · exact digit_ne_plus hd hh
          · exact digit_ne_minus hd hh
        rw [htok]
        simpa [specNumToken, hd_sign] using htok ▸ hbody
      · exact ⟨rest, hpre⟩

theorem matchNumCore_none {s : List Char} (h : matchNumCore s = none) :
    ∀ c r, s = c :: r → isReDigit c = false := by
  intro c r hs
  subst hs
  by_cases hd : isReDigit c = true
  · rw [matchNumCore] at h
    simp [List.takeWhile_cons, hd] at h
  · exact Bool.eq_false_iff.mpr hd

theorem specNumBody_head_false {l : List Char}
    (h : ∀ c r, l = c :: r → isReDigit c = false) : specNumBody l = false := by
  cases l with
  | nil => rfl
  | cons c r =>
    have := h c r rfl
    simp [specNumBody, List.takeWhile_cons, this]

theorem matchNumAt_none {s : List Char} (h : matchNumAt s = none) :
    ∀ len, specNumToken (s.take len) = false := by
  intro len
  cases s with
  | nil => cases len <;> rfl
  | cons c s' =>
    cases len with
    | zero => rfl
    | succ n =>
      rw [List.take_succ_cons]
      by_cases hc : (c = '+' || c = '-') = true
      · rw [matchNumAt, if_pos hc] at h
        have hm : matchNumCore s' = none := by
          cases hm : matchNumCore s' with
          | none => rfl
          | some t => rw [hm] at h; cases h
        have hhead : ∀ d r, s'.take n = d :: r → isReDigit d = false := by
          intro d r hdr
          cases s' with
          | nil => simp at hdr
          | cons a t =>
            cases n with
            | zero => simp at hdr
            | succ m =>
              rw [List.take_succ_cons] at hdr
              injection hdr with h1 _
              subst h1
              exact matchNumCore_none hm a t rfl
        simp [specNumToken, hc, specNumBody_head_false hhead]
      · rw [matchNumAt, if_neg hc] at h
        have hcd : isReDigit c = false := matchNumCore_none h c s' rfl
        have hhead : ∀ d r, c :: s'.take n = d :: r → isReDigit d = false := by
          intro d r hdr
          injection hdr with h1 _
          subst h1
          exact hcd
        simp [specNumToken, hc, specNumBody_head_false hhead]

theorem searchNum_none {s : List Char} (h : searchNum s = none) :
    ∀ i len, specNumToken ((s.drop i).take len) = false := by
  induction s with
  | nil => intro i len; rw [List.drop_nil]; cases len <;> rfl
  | cons c s' ih =>
    intro i len
    cases hm : matchNumAt (c :: s') with
    | some t => rw [searchNum, hm] at h; cases h
    | none =>
      rw [searchNum, hm] at h
      cases i with
      | zero => exact matchNumAt_none hm len
      | succ j => exact ih h j len

theorem searchNum_some {s tok : List Char} (h : searchNum s = some tok) :
    ∃ i, specNumToken tok = true ∧ (∃ tail, s.drop i = tok ++ tail) ∧
      ∀ j, j < i → ∀ len, specNumToken ((s.drop j).take len) = false := by
  induction s with
  | nil => cases h
  | cons c s' ih =>
    cases hm : matchNumAt (c :: s') with
    | some t =>
      rw [searchNum, hm] at h
      injection h with h
      subst h
      obtain ⟨hspec, rest, hpre⟩ := matchNumAt_sound hm
      exact ⟨0, hspec, ⟨rest, by simpa using hpre⟩,
        fun j hj => absurd hj (Nat.not_lt_zero j)⟩
    | none =>
      rw [searchNum, hm] at h
      obtain ⟨i, hspec, hpre, hbefore⟩ := ih h
      refine ⟨i + 1, hspec, by simpa using hpre, ?_⟩
      intro j hj len
      cases j with
      | zero => exact matchNumAt_none hm len
      | succ j' => exact hbefore j' (Nat.lt_of_succ_lt_succ hj) len

/-- C3: `parse_temperature` returns the value of the first substring of the
trimmed input matching the signed-decimal / exponential pattern
(`specNumToken`, no earlier position has any match), and fails — with the
`ValueError` the spec's taxonomy calls `NoNumericValue` — exactly when no
such substring exists (which subsumes empty input); in particular
`Parse("+23.456000 K") = 23.456`, `Parse("T=-12.5e-1") = -1.25`,
`Parse("٥") = 5` (a non-ASCII decimal digit, matched by `\d`), and
`Parse("")` and `Parse("no numbers here")` both fail. -/
theorem C3_parse_temperature_first_match :
    (parse_temperature "+23.456000 K" = .ok (23456 / 1000 : ℚ)) ∧
    (parse_temperature "T=-12.5e-1" = .ok (-(125 / 100) : ℚ)) ∧
    (parse_temperature "٥" = .ok (5 : ℚ)) ∧
    (∃ e, parse_temperature "" = .error e) ∧
    (∃ e, parse_temperature "no numbers here" = .error e) ∧
    (∀ s : String, (∃ e, parse_temperature s = .error e) ↔
      ¬∃ i len, specNumToken (((pyStrip s.data).drop i).take len) = true) ∧
    (∀ s : String, ∀ v : ℚ, parse_temperature s = .ok v →
      ∃ i len, specNumToken (((pyStrip s.data).drop i).take len) = true ∧
        v = tokenToRat (((pyStrip s.data).drop i).take len) ∧
        ∀ j, j < i → ∀ len2,
          specNumToken (((pyStrip s.data).drop j).take len2) = false) := by
  refine ⟨?_, ?_, ?_, ?_, ?_, ?_, ?_⟩
  · simp +decide [parse_temperature, pyStrip, pyLStrip, pyRStrip, pyIsSpace,
      searchNum, matchNumAt, matchNumCore, matchFracPart, matchExpPart,
      matchExpAfterE, tokenToRat, digitsToNat, isReDigit, reDigitVal,
      ndRangeStarts]
    norm_num
  · simp +decide [parse_temperature, pyStrip, pyLStrip, pyRStrip, pyIsSpace,
      searchNum, matchNumAt, matchNumCore, matchFracPart, matchExpPart,
      matchExpAfterE, tokenToRat, digitsToNat, isReDigit, reDigitVal,
      ndRangeStarts]
    norm_num
  · simp +decide [parse_temperature, pyStrip, pyLStrip, pyRStrip, pyIsSpace,
      searchNum, matchNumAt, matchNumCore, matchFracPart, matchExpPart,
      matchExpAfterE, tokenToRat, digitsToNat, isReDigit, reDigitVal,
      ndRangeStarts]
  · exact ⟨.valueError "Empty response", by decide⟩
  · exact ⟨.valueError "No numeric value in response", by decide⟩
  · intro s
    constructor
    · rintro ⟨e, he⟩ ⟨i, len, hspec⟩
      simp only [parse_temperature] at he
      by_cases hemp : (pyStrip s.data).isEmpty = true
      · have hnil : pyStrip s.data = [] := List.isEmpty_iff.mp hemp
        rw [hnil, List.drop_nil, List.take_nil] at hspec
        cases hspec
      · rw [if_neg hemp] at he
        cases hs : searchNum (pyStrip s.data) with
        | some tok => rw [hs] at he; cases he
        | none =>
          rw [searchNum_none hs i len] at hspec
          cases hspec
    · intro hno
      cases hp : parse_temperature s with
      | error e => exact ⟨e, rfl⟩
      | ok v =>
        exfalso
        apply hno
        simp only [parse_temperature] at hp
        by_cases hemp : (pyStrip s.data).isEmpty = true
        · rw [if_pos hemp] at hp; cases hp
        · rw [if_neg hemp] at hp
          cases hs : searchNum (pyStrip s.data) with
          | none => rw [hs] at hp; cases hp
          | some tok =>
            obtain ⟨i, hspec, ⟨tail, hdrop⟩, _⟩ := searchNum_some hs
            refine ⟨i, tok.length, ?_⟩
            rw [hdrop, List.take_left]
            exact hspec
  · intro s v hp
    simp only [parse_temperature] at hp
    by_cases hemp : (pyStrip s.data).isEmpty = true
    · rw [if_pos hemp] at hp; cases hp
    · rw [if_neg hemp] at hp
      cases hs : searchNum (pyStrip s.data) with
      | none => rw [hs] at hp; cases hp
      | some tok =>
        rw [hs] at hp
        injection hp with hv
        obtain ⟨i, hspec, ⟨tail, hdrop⟩, hbefore⟩ := searchNum_some hs
        refine ⟨i, tok.length, ?_, ?_, ?_⟩
        · rw [hdrop, List.take_left]; exact hspec
        · rw [hdrop, List.take_left]; exact hv.symm
        · intro j hj len2; exact hbefore j hj len2

/-- Witness for C3: instantiated at `"T=5"` with value `5`. -/
theorem C3_parse_temperature_first_match_witness :
    ∃ i len, specNumToken (((pyStrip ("T=5" : String).data).drop i).take len) = true ∧
      (5 : ℚ) = tokenToRat (((pyStrip ("T=5" : String).data).drop i).take len) ∧
      ∀ j, j < i → ∀ len2,
        specNumToken (((pyStrip ("T=5" : String).data).drop j).take len2) = false :=
  C3_parse_temperature_first_match.2.2.2.2.2.2 "T=5" 5 (by
    simp +decide [parse_temperature, pyStrip, pyLStrip, pyRStrip, pyIsSpace,
      searchNum, matchNumAt, matchNumCore, matchFracPart, matchExpPart,
      matchExpAfterE, tokenToRat, digitsToNat, isReDigit, reDigitVal,
      ndRangeStarts])

/-! ### Terminator round-trip -/

/-- Per-character effect of the four chained replaces in
`encode_terminator`. -/
def encChar (c : Char) : List Char :=
  if c = '\\' then ['\\', '\\']
  else if c = '\r' then ['\\', 'r']
  else if c = '\n' then ['\\', 'n']
  else if c = '\t' then ['\\', 't']
  else [c]

theorem pyReplaceChar_append (a b : List Char) (c : Char) (rep : List Char) :
    pyReplaceChar (a ++ b) c rep = pyReplaceChar a c rep ++ pyReplaceChar b c rep := by
  induction a with
  | nil => rfl
  | cons x xs ih => simp [pyReplaceChar, ih, List.append_assoc]

theorem encodeTermList_cons (x : Char) (v : List Char) :
    encodeTermList (x :: v) = encChar x ++ encodeTermList v := by
  unfold encodeTermList
  rw [show pyReplaceChar (x :: v) '\\' ['\\', '\\'] =
      (if x = '\\' then ['\\', '\\'] else [x]) ++ pyReplaceChar v '\\' ['\\', '\\']
    from rfl]
  rw [pyReplaceChar_append, pyReplaceChar_append, pyReplaceChar_append]
  congr 1
  by_cases h1 : x = '\\'
  · subst h1; decide
  · by_cases h2 : x = '\r'
    · subst h2; decide
    · by_cases h3 : x = '\n'
      · subst h3; decide
      · by_cases h4 : x = '\t'
        · subst h4; decide
        · simp [encChar, pyReplaceChar, h1, h2, h3, h4]

/-- The escape classes of the round-trip property. -/
def termAllowed (c : Char) : Prop :=
  c = '\r' ∨ c = '\n' ∨ c = '\t' ∨ c = '\\' ∨
    (('A' ≤ c ∧ c ≤ 'Z') ∨ ('a' ≤ c ∧ c ≤ 'z'))

instance (c : Char) : Decidable (termAllowed c) := by
  unfold termAllowed; infer_instance

theorem decodeUEscF_step_backslash (m : Nat) (v : List Char) :
    decodeUEscF (m + 1) ('\\' :: '\\' :: v) =
      (fun t => '\\' :: t) <$> decodeUEscF m v := rfl

theorem decodeUEscF_step_cr (m : Nat) (v : List Char) :
    decodeUEscF (m + 1) ('\\' :: 'r' :: v) =
      (fun t => '\r' :: t) <$> decodeUEscF m v := rfl

theorem decodeUEscF_step_lf (m : Nat) (v : List Char) :
    decodeUEscF (m + 1) ('\\' :: 'n' :: v) =
      (fun t => '\n' :: t) <$> decodeUEscF m v := rfl

theorem decodeUEscF_step_tab (m : Nat) (v : List Char) :
    decodeUEscF (m + 1) ('\\' :: 't' :: v) =
      (fun t => '\t' :: t) <$> decodeUEscF m v := rfl

theorem decodeUEscF_step_plain {c : Char} (hne : c ≠ '\\') (m : Nat)
    (v : List Char) :
    decodeUEscF (m + 1) (c :: v) = (fun t => c :: t) <$> decodeUEscF m v := by
  conv_lhs => rw [decodeUEscF]
  rw [if_neg hne]

theorem decode_encode_listF (s : List Char) (hs : ∀ c ∈ s, termAllowed c) :
    ∀ n, (encodeTermList s).length ≤ n → decodeUEscF n (encodeTermList s) = some s := by
  induction s with
  | nil => intro n _; cases n <;> rfl
  | cons c v ih =>
    intro n hn
    rw [encodeTermList_cons] at hn ⊢
    have hcv := hs c (by simp)
    have htail : ∀ x ∈ v, termAllowed x := fun x hx => hs x (by simp [hx])
    rcases hcv with h | h | h | h | h
    · subst h
      cases n with
      | zero => simp [encChar] at hn
      | succ m =>
        rw [show encChar '\r' ++ encodeTermList v = '\\' :: 'r' :: encodeTermList v
            from rfl, decodeUEscF_step_cr,
          ih htail m (by simp [encChar] at hn; omega)]
        rfl
    · subst h
      cases n with
      | zero => simp [encChar] at hn
      | succ m =>
        rw [show encChar '\n' ++ encodeTermList v = '\\' :: 'n' :: encodeTermList v
            from rfl, decodeUEscF_step_lf,
          ih htail m (by simp [encChar] at hn; omega)]
        rfl
    · subst h
      cases n with
      | zero => simp [encChar] at hn
      | succ m =>
        rw [show encChar '\t' ++ encodeTermList v = '\\' :: 't' :: encodeTermList v
            from rfl, decodeUEscF_step_tab,
          ih htail m (by simp [encChar] at hn; omega)]
        rfl
    · subst h
      cases n with
      | zero => simp [encChar] at hn
      | succ m =>
        rw [show encChar '\\' ++ encodeTermList v = '\\' :: '\\' :: encodeTermList v
            from rfl, decodeUEscF_step_backslash,
          ih htail m (by simp [encChar] at hn; omega)]
        rfl
    · have hne : c ≠ '\\' := by
        rcases h with ⟨h1, h2⟩ | ⟨h1, h2⟩ <;> intro hh <;> subst hh
        · exact absurd h2 (by decide)
        · exact absurd h1 (by decide)
      have hne2 : c ≠ '\r' ∧ c ≠ '\n' ∧ c ≠ '\t' := by
        rcases h with ⟨h1, h2⟩ | ⟨h1, h2⟩ <;>
          refine ⟨?_, ?_, ?_⟩ <;> intro hh <;> subst hh <;>
            exact absurd h1 (by decide)
      have henc : encChar c = [c] := by
        simp [encChar, hne, hne2.1, hne2.2.1, hne2.2.2]
      rw [henc] at hn ⊢
      cases n with
      | zero => simp at hn
      | succ m =>
        rw [List.singleton_append, decodeUEscF_step_plain hne,
          ih htail m (by simp at hn; omega)]
        rfl

/-- C4: for every string over the escape classes carriage-return, line-feed,
tab, backslash and the ASCII letters, decoding the encoding returns the
original string: `decode_terminator (encode_terminator s) = s`. -/
theorem C4_terminator_roundtrip (s : String)
    (hs : ∀ c ∈ s.data, termAllowed c) :
    decode_terminator (encode_terminator s) = some s := by
  cases s with
  | mk l =>
    show (fun t => (⟨t⟩ : String)) <$> decodeUEsc (encodeTermList l) = some ⟨l⟩
    unfold decodeUEsc
    rw [decode_encode_listF l hs (encodeTermList l).length (le_refl _)]
    rfl

/-- Witness for C4 at the string `"A\r\n\t\\z"`. -/
theorem C4_terminator_roundtrip_witness :
    decode_terminator (encode_terminator "A\r\n\t\\z") = some "A\r\n\t\\z" :=
  C4_terminator_roundtrip "A\r\n\t\\z" (by decide)

/-! ### Alarm debounce -/

/-- C1: with the alarm enabled, a breached threshold, email enabled and an
email config present, `AlarmManager.evaluate` dispatches a notification
exactly when `last_email_ts` is unset or `now - last_email_ts` is at least
`max 1 email_min_interval_min * 60` seconds, and sets `last_email_ts := now`
exactly on dispatch; in the concrete scenario with a 1-minute interval,
in-alarm evaluations at 0 s and 30 s dispatch once, and a third at 61 s
dispatches a second time. -/
theorem C1_alarm_debounce :
    (∀ (m : AlarmManager) (temp : ℚ) (st : AlarmSettings) (ec : EmailConfig)
        (now : ℚ),
      st.enabled = true → st.email_enabled = true →
      ((st.low_enabled && decide (temp < st.low_threshold)) ||
        (st.high_enabled && decide (temp > st.high_threshold))) = true →
      (((m.evaluate temp st (some ec) now).2 = true ↔
        (m.last_email_ts = none ∨ ∃ ts, m.last_email_ts = some ts ∧
          now - ts ≥ ((max 1 st.email_min_interval_min : ℤ) : ℚ) * 60)) ∧
      ((m.evaluate temp st (some ec) now).2 = true →
        (m.evaluate temp st (some ec) now).1.last_email_ts = some now) ∧
      ((m.evaluate temp st (some ec) now).2 = false →
        (m.evaluate temp st (some ec) now).1.last_email_ts = m.last_email_ts))) ∧
    (((AlarmManager.init.evaluate 20 ⟨true, false, 0, true, 10, false, true, 1⟩
        (some ⟨"", 0, false, "", "", "", [], ""⟩) 0).2 = true) ∧
      (((AlarmManager.init.evaluate 20 ⟨true, false, 0, true, 10, false, true, 1⟩
          (some ⟨"", 0, false, "", "", "", [], ""⟩) 0).1.evaluate 20
          ⟨true, false, 0, true, 10, false, true, 1⟩
          (some ⟨"", 0, false, "", "", "", [], ""⟩) 30).2 = false) ∧
      ((((AlarmManager.init.evaluate 20 ⟨true, false, 0, true, 10, false, true, 1⟩
          (some ⟨"", 0, false, "", "", "", [], ""⟩) 0).1.evaluate 20
          ⟨true, false, 0, true, 10, false, true, 1⟩
          (some ⟨"", 0, false, "", "", "", [], ""⟩) 30).1.evaluate 20
          ⟨true, false, 0, true, 10, false, true, 1⟩
          (some ⟨"", 0, false, "", "", "", [], ""⟩) 61).2 = true)) := by
  constructor
  · intro m temp st ec now hen hem halarm
    rcases hlast : m.last_email_ts with _ | ts
    · refine ⟨?_, ?_, ?_⟩ <;>
        simp [AlarmManager.evaluate, hen, hem, halarm, hlast]
    · have hcast : (((max 1 st.email_min_interval_min : ℤ) : ℚ)) =
          max 1 (st.email_min_interval_min : ℚ) := by push_cast; rfl
      by_cases hge : now - ts ≥ ((max 1 st.email_min_interval_min : ℤ) : ℚ) * 60
      · have hge' : max 1 (st.email_min_interval_min : ℚ) * 60 ≤ now - ts := by
          rw [← hcast]; exact hge
        refine ⟨?_, ?_, ?_⟩ <;>
          simp [AlarmManager.evaluate, hen, hem, halarm, hlast, hge', hcast, hge]
      · have hge' : ¬(max 1 (st.email_min_interval_min : ℚ) * 60 ≤ now - ts) := by
          rw [← hcast]; exact hge
        refine ⟨?_, ?_, ?_⟩ <;>
          simp [AlarmManager.evaluate, hen, hem, halarm, hlast, hge', hcast, hge]
  · refine ⟨?_, ?_, ?_⟩ <;>
      · simp only [AlarmManager.evaluate, AlarmManager.init]
        norm_num

/-! ### Ring buffer -/

theorem appendPoint_length_le {α : Type} {m : Nat} (hm : 0 < m)
    (buf : List α) (x : α) : (appendPoint m buf x).length ≤ m := by
  unfold appendPoint pyTailSlice
  by_cases hlen : (buf ++ [x]).length > m
  · rw [if_pos hlen, if_neg (Nat.pos_iff_ne_zero.mp hm)]
    rw [List.length_drop]
    omega
  · rw [if_neg hlen]
    omega

theorem foldl_appendPoint_length {α : Type} {m : Nat} (hm : 0 < m)
    (samples : List α) :
    ∀ acc : List α, acc.length ≤ m →
      (samples.foldl (appendPoint m) acc).length ≤ m := by
  induction samples with
  | nil => intro acc h; simpa using h
  | cons x xs ih =>
    intro acc _
    rw [List.foldl_cons]
    exact ih (appendPoint m acc x) (appendPoint_length_le hm acc x)

theorem foldl_appendPoint_unbounded {α : Type} (samples : List α) :
    ∀ acc : List α, samples.foldl (appendPoint 0) acc = acc ++ samples := by
  induction samples with
  | nil => intro acc; simp
  | cons x xs ih =>
    intro acc
    rw [List.foldl_cons]
    have hstep : appendPoint 0 acc x = acc ++ [x] := by
      unfold appendPoint pyTailSlice
      simp
    rw [hstep, ih, List.append_assoc]
    rfl

/-- C2: folding any sequence of samples through the history append keeps at
most `maxPoints` samples when `maxPoints > 0`, keeps everything (in order)
when `maxPoints = 0` — Python's `lst[-0:]` is the whole list — and
appending `maxPoints + 5 = 15` samples with `maxPoints = 10` leaves exactly
the last 10 in their original order. -/
theorem C2_ring_buffer_cap (maxPoints : Nat) (samples : List ℚ) :
    (0 < maxPoints →
      (samples.foldl (appendPoint maxPoints) []).length ≤ maxPoints) ∧
    (maxPoints = 0 → samples.foldl (appendPoint maxPoints) [] = samples) ∧
    ((List.range 15).foldl (appendPoint 10) [] = (List.range 15).drop 5) := by
  refine ⟨?_, ?_, ?_⟩
  · intro hm
    exact foldl_appendPoint_length hm samples [] (by simp)
  · intro hm
    subst hm
    simpa using foldl_appendPoint_unbounded samples []
  · decide

/-- Witness for C2 at `maxPoints = 10` over three samples. -/
theorem C2_ring_buffer_cap_witness :
    ((([1, 2, 3] : List ℚ).foldl (appendPoint 10) []).length ≤ 10) ∧
      (([] : List ℚ).foldl (appendPoint 0) [] = []) :=
  ⟨(C2_ring_buffer_cap 10 [1, 2, 3]).1 (by norm_num),
    (C2_ring_buffer_cap 0 []).2.1 rfl⟩

/-- Witness for C1: first in-alarm evaluation of a fresh manager at `now = 0`
with a 1-minute interval. -/
theorem C1_alarm_debounce_witness :
    ((AlarmManager.init.evaluate 20 ⟨true, false, 0, true, 10, false, true, 1⟩
        (some ⟨"", 0, false, "", "", "", [], ""⟩) 0).2 = true ↔
      (AlarmManager.init.last_email_ts = none ∨
        ∃ ts, AlarmManager.init.last_email_ts = some ts ∧
          (0 : ℚ) - ts ≥ ((max 1 (1 : ℤ) : ℤ) : ℚ) * 60)) ∧
    ((AlarmManager.init.evaluate 20 ⟨true, false, 0, true, 10, false, true, 1⟩
        (some ⟨"", 0, false, "", "", "", [], ""⟩) 0).2 = true →
      (AlarmManager.init.evaluate 20 ⟨true, false, 0, true, 10, false, true, 1⟩
        (some ⟨"", 0, false, "", "", "", [], ""⟩) 0).1.last_email_ts = some 0) ∧
    ((AlarmManager.init.evaluate 20 ⟨true, false, 0, true, 10, false, true, 1⟩
        (some ⟨"", 0, false, "", "", "", [], ""⟩) 0).2 = false →
      (AlarmManager.init.evaluate 20 ⟨true, false, 0, true, 10, false, true, 1⟩
        (some ⟨"", 0, false, "", "", "", [], ""⟩) 0).1.last_email_ts =
        AlarmManager.init.last_email_ts) :=
  C1_alarm_debounce.1 AlarmManager.init 20
    ⟨true, false, 0, true, 10, false, true, 1⟩
    ⟨"", 0, false, "", "", "", [], ""⟩ 0 rfl rfl (by norm_num)

/-! ### Query post-processing (terminator trimming) -/

theorem dropWhile_append_all {p : Char → Bool} {l1 : List Char}
    (h : ∀ c ∈ l1, p c = true) (l2 : List Char) :
    (l1 ++ l2).dropWhile p = l2.dropWhile p := by
  induction l1 with
  | nil => rfl
  | cons a t ih =>
    have hpa := h a (by simp)
    simp only [List.cons_append, List.dropWhile_cons, hpa, if_true]
    exact ih (fun c hc => h c (by simp [hc]))

theorem pyRStrip_append_ws {a ws : List Char}
    (h : ∀ c ∈ ws, pyIsSpace c = true) : pyRStrip (a ++ ws) = pyRStrip a := by
  unfold pyRStrip
  rw [List.reverse_append]
  rw [dropWhile_append_all (fun c hc => h c (by simpa using hc))]

/-- C5 counterexample: with terminator `";"` (byte 59) and reply body `"A"`
(byte 65), the value returned by the query post-processing still ends in
the terminator — it is `"A;"`, not the `"A"` that removing the trailing
terminator would give. -/
theorem C5_counterexample_semicolon :
    queryPostprocess ([65] ++ [59]) = ['A', ';'] ∧
      queryPostprocess ([65] ++ [59]) ≠ pyStrip (decodeAsciiIgnore [65]) := by
  decide

/-- C5 (amended): both query paths return `strip(decode(bytes))`
(`comms.py` lines 68 and 119), so surrounding whitespace is always removed,
and the trailing terminator is removed exactly when its decoded characters
are all whitespace (true for the default `"\r\n"`); a non-whitespace
terminator is retained. -/
theorem C5_query_strips_whitespace_terminator (body term : List Nat)
    (hterm : ∀ c ∈ decodeAsciiIgnore term, pyIsSpace c = true) :
    queryPostprocess (body ++ term) = pyStrip (decodeAsciiIgnore body) := by
  unfold queryPostprocess pyStrip
  have hsplit : decodeAsciiIgnore (body ++ term) =
      decodeAsciiIgnore body ++ decodeAsciiIgnore term := by
    unfold decodeAsciiIgnore
    exact List.filterMap_append ..
  rw [hsplit, pyRStrip_append_ws hterm]

/-- Witness for C5 (amended): body `"T1"` with terminator CR LF. -/
theorem C5_query_strips_whitespace_terminator_witness :
    queryPostprocess ([84, 49] ++ [13, 10]) =
      pyStrip (decodeAsciiIgnore [84, 49]) :=
  C5_query_strips_whitespace_terminator [84, 49] [13, 10] (by decide)

/-! ### Transport not-open behaviour -/

/-- C6 counterexample: a serial connection that was opened and then closed
reports `is_open = false`, yet `query`'s guard does not raise the not-open
error — it proceeds to attempt I/O on the retained handle. -/
theorem C6_counterexample_serial_closed :
    (SerialConnection.init.openConn.closeConn).is_open = false ∧
      (SerialConnection.init.openConn.closeConn).queryStep =
        QueryStep.ioAttempt := by
  decide

/-- C6 (amended): `query` fails with the not-open `RuntimeError` without
attempting I/O on a never-opened connection of either variant and on a
closed ethernet connection (whose `close` drops the socket); a serial
connection that was opened and then closed retains its handle
(`close` does not clear `_serial`), so `query` passes the guard and
attempts I/O instead. -/
theorem C6_query_not_open (e : EthernetConnection) (s : SerialConnection) :
    (e.is_open = false → e.queryStep = QueryStep.notOpenError) ∧
    (s.serialField = none → s.queryStep = QueryStep.notOpenError) ∧
    (EthernetConnection.init.queryStep = QueryStep.notOpenError) ∧
    (SerialConnection.init.queryStep = QueryStep.notOpenError) ∧
    ((EthernetConnection.init.openConn.closeConn).queryStep =
      QueryStep.notOpenError) ∧
    ((SerialConnection.init.openConn.closeConn).queryStep =
      QueryStep.ioAttempt) := by
  refine ⟨?_, ?_, rfl, rfl, rfl, rfl⟩
  · intro he
    unfold EthernetConnection.is_open at he
    unfold EthernetConnection.queryStep
    cases hs : e.sockField with
    | none => rfl
    | some v => rw [hs] at he; cases he
  · intro hs
    unfold SerialConnection.queryStep
    rw [hs]

/-- Witness for C6 (amended) at a concrete closed ethernet connection and a
concrete handle-free serial connection. -/
theorem C6_query_not_open_witness :
    (((⟨none, 3⟩ : EthernetConnection).is_open = false →
      (⟨none, 3⟩ : EthernetConnection).queryStep = QueryStep.notOpenError)) ∧
    (((⟨none, 2⟩ : SerialConnection).serialField = none →
      (⟨none, 2⟩ : SerialConnection).queryStep = QueryStep.notOpenError)) ∧
    ((⟨none, 3⟩ : EthernetConnection).queryStep = QueryStep.notOpenError) :=
  ⟨(C6_query_not_open ⟨none, 3⟩ ⟨none, 2⟩).1,
    (C6_query_not_open ⟨none, 3⟩ ⟨none, 2⟩).2.1,
    (C6_query_not_open ⟨none, 3⟩ ⟨none, 2⟩).2.2.1⟩

/-! ### Poll cycle and log-write failure -/

/-- C7 counterexample: in a poll cycle where query and parse succeed but the
logger's row write fails, the alarm evaluator is not invoked, no status
report of any kind is produced, and the exception escapes the poll handler
(`logger.log` at `main_window.py:545` is outside the `try` block). -/
theorem C7_counterexample_log_write_failure :
    ((pollTemperature ⟨[], [], some ⟨some "p", some ["h"]⟩, AlarmManager.init⟩
        (.ok 25) 1 "row" false 3600 ⟨true, false, 0, true, 10, false, true, 1⟩
        none 0).2.alarmEvaluated = false) ∧
    ((pollTemperature ⟨[], [], some ⟨some "p", some ["h"]⟩, AlarmManager.init⟩
        (.ok 25) 1 "row" false 3600 ⟨true, false, 0, true, 10, false, true, 1⟩
        none 0).2.statusMessage = none) ∧
    ((pollTemperature ⟨[], [], some ⟨some "p", some ["h"]⟩, AlarmManager.init⟩
        (.ok 25) 1 "row" false 3600 ⟨true, false, 0, true, 10, false, true, 1⟩
        none 0).2.uncaughtError = true) := by
  decide

/-- C7 (amended): when the transport query and parse succeed but the row
write fails, the poll cycle aborts at the logging step: the history buffers
keep the new sample (mutations before the write persist), but the alarm
evaluator is not invoked, no `LogWriteFailed` status is surfaced, and the
exception escapes `_poll_temperature`; the handler itself tears nothing
down, so later ticks still run polls. -/
theorem C7_log_write_failure_aborts_cycle
    (st : PollState) (temp elapsed now : ℚ) (row : String) (mp : Nat)
    (asettings : AlarmSettings) (ec : Option EmailConfig)
    (lg : DataLogger) (lines : List String)
    (hlg : st.logger = some lg) (hhandle : lg.handleField = some lines) :
    ((pollTemperature st (.ok temp) elapsed row false mp asettings ec
        now).2.alarmEvaluated = false) ∧
    ((pollTemperature st (.ok temp) elapsed row false mp asettings ec
        now).2.statusMessage = none) ∧
    ((pollTemperature st (.ok temp) elapsed row false mp asettings ec
        now).2.uncaughtError = true) ∧
    ((pollTemperature st (.ok temp) elapsed row false mp asettings ec
        now).1.alarm_manager = st.alarm_manager) ∧
    ((pollTemperature st (.ok temp) elapsed row false mp asettings ec
        now).1.logger = some lg) ∧
    ((pollTemperature st (.ok temp) elapsed row false mp asettings ec
        now).1.time_data = appendPoint mp st.time_data elapsed) := by
  refine ⟨?_, ?_, ?_, ?_, ?_, ?_⟩ <;>
    simp [pollTemperature, DataLogger.log, hlg, hhandle]

/-- Witness for C7 (amended) at a concrete session state. -/
theorem C7_log_write_failure_aborts_cycle_witness :
    ((pollTemperature ⟨[], [], some ⟨some "p", some ["h"]⟩, AlarmManager.init⟩
        (.ok 25) 1 "row" false 10 ⟨false, false, 0, false, 0, false, false, 60⟩
        none 0).2.alarmEvaluated = false) ∧
    ((pollTemperature ⟨[], [], some ⟨some "p", some ["h"]⟩, AlarmManager.init⟩
        (.ok 25) 1 "row" false 10 ⟨false, false, 0, false, 0, false, false, 60⟩
        none 0).2.statusMessage = none) ∧
    ((pollTemperature ⟨[], [], some ⟨some "p", some ["h"]⟩, AlarmManager.init⟩
        (.ok 25) 1 "row" false 10 ⟨false, false, 0, false, 0, false, false, 60⟩
        none 0).2.uncaughtError = true) ∧
    ((pollTemperature ⟨[], [], some ⟨some "p", some ["h"]⟩, AlarmManager.init⟩
        (.ok 25) 1 "row" false 10 ⟨false, false, 0, false, 0, false, false, 60⟩
        none 0).1.alarm_manager = AlarmManager.init) ∧
    ((pollTemperature ⟨[], [], some ⟨some "p", some ["h"]⟩, AlarmManager.init⟩
        (.ok 25) 1 "row" false 10 ⟨false, false, 0, false, 0, false, false, 60⟩
        none 0).1.logger = some ⟨some "p", some ["h"]⟩) ∧
    ((pollTemperature ⟨[], [], some ⟨some "p", some ["h"]⟩, AlarmManager.init⟩
        (.ok 25) 1 "row" false 10 ⟨false, false, 0, false, 0, false, false, 60⟩
        none 0).1.time_data = appendPoint 10 [] 1) :=
  C7_log_write_failure_aborts_cycle
    ⟨[], [], some ⟨some "p", some ["h"]⟩, AlarmManager.init⟩
    25 1 0 "row" 10 ⟨false, false, 0, false, 0, false, false, 60⟩ none
    ⟨some "p", some ["h"]⟩ ["h"] rfl rfl

/-! ### Logger no-op after close / before start -/

/-- C9: `DataLogger.log` on a logger whose handle is absent — never started
or already closed — is a silent no-op: it returns without writing a row,
raises nothing, and leaves the logger state unchanged; in particular this
holds for a fresh logger and for any logger after `close`. -/
theorem C9_logger_log_noop (l : DataLogger) (writeOk : Bool) (row : String) :
    (l.handleField = none → l.log writeOk row = .ok l) ∧
    (l.close.log writeOk row = .ok l.close) ∧
    (DataLogger.initFor.log writeOk row = .ok DataLogger.initFor) := by
  refine ⟨?_, ?_, ?_⟩
  · intro h
    unfold DataLogger.log
    rw [h]
  · unfold DataLogger.log DataLogger.close
    rfl
  · rfl

/-- Witness for C9 at a concrete never-started logger. -/
theorem C9_logger_log_noop_witness :
    ((⟨some "p", none⟩ : DataLogger).handleField = none →
      (⟨some "p", none⟩ : DataLogger).log false "r" = .ok ⟨some "p", none⟩) ∧
    ((⟨some "p", none⟩ : DataLogger).close.log false "r" =
      .ok (⟨some "p", none⟩ : DataLogger).close) ∧
    (DataLogger.initFor.log false "r" = .ok DataLogger.initFor) :=
  C9_logger_log_noop ⟨some "p", none⟩ false "r"

/-! ### Open idempotence -/

/-- C10: on both transport variants, `open` on an already-open connection is
an idempotent no-op — the state, including the identity of the underlying
handle, is unchanged and no new handle is allocated. -/
theorem C10_open_idempotent (s : SerialConnection) (e : EthernetConnection) :
    (s.is_open = true → s.openConn = s) ∧
    (e.is_open = true → e.openConn = e) := by
  constructor
  · intro hs
    unfold SerialConnection.is_open at hs
    unfold SerialConnection.openConn
    cases hf : s.serialField with
    | none => rw [hf] at hs; cases hs
    | some h =>
      rw [hf] at hs
      simp only [] at hs
      simp [hs]
  · intro he
    unfold EthernetConnection.is_open at he
    unfold EthernetConnection.openConn
    cases hf : e.sockField with
    | none => rw [hf] at he; cases he
    | some v => rfl

/-- Witness for C10 at concrete open connections. -/
theorem C10_open_idempotent_witness :
    ((⟨some ⟨0, true⟩, 1⟩ : SerialConnection).is_open = true →
      (⟨some ⟨0, true⟩, 1⟩ : SerialConnection).openConn = ⟨some ⟨0, true⟩, 1⟩) ∧
    ((⟨some 0, 1⟩ : EthernetConnection).is_open = true →
      (⟨some 0, 1⟩ : EthernetConnection).openConn = ⟨some 0, 1⟩) :=
  C10_open_idempotent ⟨some ⟨0, true⟩, 1⟩ ⟨some 0, 1⟩
